import Mathlib

/-!
Verification of the CNC-code utility (script.py).

The program processes a text file of G-code-like lines.  A regular
expression
  X(-*[0-9]+\.[0-9]{3})Y(-*[0-9]+\.[0-9]{3})(T[0-9]{2,})?
classifies lines; funkce1 rewrites the file grouping coordinate blocks by
tool definition, funkce2 reports coordinate extrema.

Modelling conventions:
* Coordinate numerals in the file always have exactly three fractional
  digits, so a parsed value is represented exactly as an integer number of
  thousandths (an Int n stands for the value n / 1000).  The Y-offset rule
  (add 10 when X > 50) becomes: add 10000 when x > 50000.
* A file is a list of lines, each line a String without its newline; the
  written output is a list of lines in order.
* Python float(...) can raise ValueError; that exception is not caught by
  the script, so a parse failure aborts the run.  The model records this
  with an explicit crashed flag / crashed result.
-/

/-- Decimal digit character for a digit value (used by the 3-decimal
float formatting model). -/
def digitChar (d : Nat) : Char :=
  if d = 0 then '0' else if d = 1 then '1' else if d = 2 then '2'
  else if d = 3 then '3' else if d = 4 then '4' else if d = 5 then '5'
  else if d = 6 then '6' else if d = 7 then '7' else if d = 8 then '8'
  else if d = 9 then '9' else '?'

/-- Decimal digits of a natural number, most significant first
(fuel-indexed division loop; fuel n+1 always suffices). -/
def natDigitsRec : Nat → Nat → List Char
  | 0, _ => []
  | fuel + 1, n =>
    if n < 10 then [digitChar n]
    else natDigitsRec fuel (n / 10) ++ [digitChar (n % 10)]

/-- Decimal digits of a natural number, most significant first. -/
def natChars (n : Nat) : List Char :=
  natDigitsRec (n + 1) n

/-- The three fractional digits of r (with r < 1000), zero padded. -/
def pad3 (r : Nat) : List Char :=
  [digitChar (r / 100), digitChar (r / 10 % 10), digitChar (r % 10)]

/-- Characters of the fixed 3-decimal rendering of the value n/1000;
models Python "{:.3f}".format on the exact thousandths values the
program manipulates. -/
def fmtChars (n : Int) : List Char :=
  (if n < 0 then ['-'] else []) ++
    natChars (n.natAbs / 1000) ++ '.' :: pad3 (n.natAbs % 1000)

/-- Models get_formatted_coords: the string "X{x:.3f}Y{y:.3f}". -/
def getFormattedCoords (x y : Int) : String :=
  String.mk ('X' :: fmtChars x ++ 'Y' :: fmtChars y)

/-- Result of a successful match of the coordinate pattern: the two
numeric substrings (group 1 and group 2) and the optional
tool-definition substring (group 3), all as character lists. -/
structure CMatch where
  g1 : List Char
  g2 : List Char
  g3 : Option (List Char)
deriving DecidableEq

/-- Match the numeric subpattern -*[0-9]+\.[0-9]{3} at the head of cs,
returning the matched substring and the remainder.  Greedy quantifier
semantics are deterministic here because the character classes of
adjacent pieces are disjoint. -/
def matchNum (cs : List Char) : Option (List Char × List Char) :=
  let p1 := cs.span (· == '-')
  let p2 := p1.2.span Char.isDigit
  match p2.1, p2.2 with
  | [], _ => none
  | _ :: _, '.' :: d1 :: d2 :: d3 :: r3 =>
    if d1.isDigit && d2.isDigit && d3.isDigit then
      some (p1.1 ++ p2.1 ++ '.' :: [d1, d2, d3], r3)
    else none
  | _ :: _, _ => none

/-- Match the optional tool-definition subpattern (T[0-9]{2,})? at the
head of cs: the letter T followed by two or more digits (taken
greedily).  Returns the matched substring, or none when the optional
group does not participate. -/
def matchT (cs : List Char) : Option (List Char) :=
  match cs with
  | [] => none
  | c :: rest =>
    if c = 'T' then
      let ds := rest.takeWhile Char.isDigit
      if 2 ≤ ds.length then some ('T' :: ds) else none
    else none

/-- Try to match the full coordinate pattern starting exactly at the
head of cs. -/
def matchAt (cs : List Char) : Option CMatch :=
  match cs with
  | [] => none
  | c :: r0 =>
    if c = 'X' then
      match matchNum r0 with
      | some (g1, r1) =>
        match r1 with
        | [] => none
        | c1 :: r2 =>
          if c1 = 'Y' then
            match matchNum r2 with
            | some (g2, r3) => some ⟨g1, g2, matchT r3⟩
            | none => none
          else none
      | none => none
    else none

/-- Models re.search with the coordinate pattern: the match at the
leftmost starting position where the pattern matches, or none. -/
def searchChars : List Char → Option CMatch
  | [] => none
  | c :: cs =>
    match matchAt (c :: cs) with
    | some m => some m
    | none => searchChars cs

/-- Numeric value (in thousandths) of a digit character. -/
def digitVal (c : Char) : Nat := c.toNat - 48

/-- Value of a list of decimal digit characters, most significant
first. -/
def digitsToNat (ds : List Char) : Nat :=
  ds.foldl (fun a c => a * 10 + digitVal c) 0

/-- Magnitude part of Python float() on the strings produced by the
numeric groups of the classifier: one or more digits, a dot, exactly
three fractional digits.  Returns the value in thousandths. -/
def parseMag (cs : List Char) : Option Nat :=
  let p := cs.span Char.isDigit
  match p.1, p.2 with
  | [], _ => none
  | _ :: _, '.' :: f1 :: f2 :: f3 :: [] =>
    if f1.isDigit && f2.isDigit && f3.isDigit then
      some (digitsToNat p.1 * 1000 +
        (digitVal f1 * 100 + digitVal f2 * 10 + digitVal f3))
    else none
  | _ :: _, _ => none

/-- Models Python float() restricted to the substrings matched by the
numeric groups -*[0-9]+\.[0-9]{3}: at most one leading minus sign is
accepted (float raises ValueError on a second minus), and the value is
returned exactly in thousandths. -/
def parseFixed3 : List Char → Option Int
  | '-' :: '-' :: _ => none
  | '-' :: rest => (parseMag rest).map (fun n => -(n : Int))
  | cs => (parseMag cs).map (fun n => (n : Int))

/-- Models get_coords: float-parse the two numeric groups of a match;
none models the uncaught ValueError. -/
def getCoords (m : CMatch) : Option (Int × Int) :=
  match parseFixed3 m.g1, parseFixed3 m.g2 with
  | some x, some y => some (x, y)
  | _, _ => none

/-- Truthiness of the tool_def variable (None or a string): Python
treats None and the empty string as false. -/
def truthy : Option String → Bool
  | none => false
  | some s => s ≠ ""

/-- The block accumulator: DefaultDict(list) keyed by tool definition.
Modelled as an association list in key insertion order; each key maps
to its coordinate list in append order. -/
def BlockMap : Type := List (String × List (Int × Int))

/-- blocks[tool_def].append((x, y)) on a DefaultDict(list): append to
the existing key, or create the key at the end of insertion order. -/
def insertCoord : List (String × List (Int × Int)) → String → Int × Int →
    List (String × List (Int × Int))
  | [], t, c => [(t, [c])]
  | (k, cs) :: rest, t, c =>
    if k = t then (k, cs ++ [c]) :: rest else (k, cs) :: insertCoord rest t c

/-- blocks[tool_def] lookup (the key is always present when used). -/
def lookupBlock : List (String × List (Int × Int)) → String → List (Int × Int)
  | [], _ => []
  | (k, cs) :: rest, t => if k = t then cs else lookupBlock rest t

/-- The inner loop of write_sorted_blocks for one key: one output line
per buffered coordinate, the tool-definition token appended only while
include_definition is still true (i.e. on the first line). -/
def groupLines (tool_def : String) : List (Int × Int) → Bool → List String
  | [], _ => []
  | (x, y) :: rest, inclDef =>
    (if inclDef then getFormattedCoords x y ++ tool_def
     else getFormattedCoords x y) :: groupLines tool_def rest false

/-- Lexicographic (code-point) non-strict comparison of character
lists; the order Python uses on strings. -/
def charListLe : List Char → List Char → Bool
  | [], _ => true
  | _ :: _, [] => false
  | a :: as, b :: bs =>
    if a < b then true
    else if b < a then false
    else charListLe as bs

/-- Python string comparison a <= b (lexicographic by code point). -/
def strLe (a b : String) : Bool := charListLe a.data b.data

/-- Insert a key into an already sorted key list. -/
def insertSorted (k : String) : List String → List String
  | [] => [k]
  | x :: xs => if strLe k x then k :: x :: xs else x :: insertSorted k xs

/-- Ascending insertion sort of key strings; models sorted(...) on the
keys of the accumulator (keys are distinct, so any ascending sort
yields the list sorted(...) returns). -/
def sortStrings : List String → List String
  | [] => []
  | x :: xs => insertSorted x (sortStrings xs)

/-- sorted(blocks.keys()): the keys in ascending lexicographic string
order. -/
def sortedKeys (blocks : List (String × List (Int × Int))) : List String :=
  sortStrings (blocks.map Prod.fst)

/-- Models write_sorted_blocks: for each key in ascending order, the
lines of its group. -/
def flushLines (blocks : List (String × List (Int × Int))) : List String :=
  (sortedKeys blocks).flatMap (fun t => groupLines t (lookupBlock blocks t) true)

/-- State of funkce1 while streaming the input lines: the accumulator,
the current tool definition, the output lines written so far, and
whether an uncaught ValueError has aborted the run. -/
structure RwState where
  blocks : List (String × List (Int × Int))
  toolDef : Option String
  out : List String
  crashed : Bool
deriving DecidableEq

/-- The tool definition after the group-3 update at the top of
parse_line: group 3 when it matched, otherwise the incoming value. -/
def effToolDef (m : CMatch) (st : RwState) : Option String :=
  match m.g3 with
  | some g => some (String.mk g)
  | none => st.toolDef

/-- Models parse_line on a matched line: update the tool definition
from group 3, parse the coordinates (crash on ValueError), add 10 to Y
when X > 50, then either buffer the pair under the active tool
definition or write the formatted pair directly to the output. -/
def parseLineStep (m : CMatch) (st : RwState) : RwState :=
  let td := effToolDef m st
  match getCoords m with
  | none => { st with crashed := true }
  | some (x, y) =>
    let y := if 50000 < x then y + 10000 else y
    if truthy td then
      { st with blocks := insertCoord st.blocks (td.getD "") (x, y), toolDef := td }
    else
      { st with out := st.out ++ [getFormattedCoords x y], toolDef := td }

/-- One iteration of the funkce1 line loop: classify the line; on a
match run parse_line; on a non-match with an active tool definition
flush the sorted blocks (without clearing them), write the line
verbatim and reset the tool definition; otherwise write the line
verbatim. -/
def funkce1Step (st : RwState) (line : String) : RwState :=
  if st.crashed then st
  else
    match searchChars line.data with
    | some m => parseLineStep m st
    | none =>
      if truthy st.toolDef then
        { st with out := st.out ++ flushLines st.blocks ++ [line], toolDef := none }
      else
        { st with out := st.out ++ [line] }

/-- Initial state of funkce1: empty accumulator, no tool definition,
empty output. -/
def funkce1Init : RwState := ⟨[], none, [], false⟩

/-- Models the funkce1 line loop over the whole file. -/
def funkce1Run (lines : List String) : RwState :=
  lines.foldl funkce1Step funkce1Init

/-- The lines funkce1 writes to cnc.txt for a given input file. -/
def funkce1Out (lines : List String) : List String :=
  (funkce1Run lines).out

/-- Extended value for the extrema dictionary: a finite coordinate in
thousandths, or one of the math.inf sentinels. -/
inductive XVal where
  | ninf : XVal
  | fin : Int → XVal
  | pinf : XVal
deriving DecidableEq

/-- Python float comparison on the values the extrema dictionary holds
(finite values and the two infinities). -/
def ltX : XVal → XVal → Bool
  | .ninf, .ninf => false
  | .ninf, .fin _ => true
  | .ninf, .pinf => true
  | .fin _, .ninf => false
  | .fin a, .fin b => a < b
  | .fin _, .pinf => true
  | .pinf, _ => false

/-- Non-strict order on extended values (strictly below or equal). -/
def leX (a b : XVal) : Bool := ltX a b || a == b

/-- The extrema dictionary of funkce2 as a record, fields in the
dictionary insertion order min_x, max_x, min_y, max_y. -/
structure Extremas where
  min_x : XVal
  max_x : XVal
  min_y : XVal
  max_y : XVal
deriving DecidableEq

/-- Initial extrema: { min_x: inf, max_x: -inf, min_y: inf, max_y: -inf }. -/
def initExtremas : Extremas := ⟨.pinf, .ninf, .pinf, .ninf⟩

/-- Models update_min_max: the four sequential comparisons against a
finite coordinate pair. -/
def updateMinMax (x y : Int) (ex : Extremas) : Extremas :=
  let ex := if ltX (.fin x) ex.min_x then { ex with min_x := .fin x } else ex
  let ex := if ltX ex.max_x (.fin x) then { ex with max_x := .fin x } else ex
  let ex := if ltX (.fin y) ex.min_y then { ex with min_y := .fin y } else ex
  let ex := if ltX ex.max_y (.fin y) then { ex with max_y := .fin y } else ex
  ex

/-- Python "{:.3f}".format on an extrema value: three decimals for a
finite value, "inf" / "-inf" for the sentinels. -/
def formatXVal : XVal → String
  | .ninf => "-inf"
  | .fin n => String.mk (fmtChars n)
  | .pinf => "inf"

/-- Models print_min_max: the four values in dictionary insertion
order joined by "/". -/
def printMinMax (ex : Extremas) : String :=
  String.intercalate "/"
    [formatXVal ex.min_x, formatXVal ex.max_x, formatXVal ex.min_y, formatXVal ex.max_y]

/-- Result of the funkce2 scanning loop: fell off the end of the file
(cont, with the final in_block flag), left via break on a non-matching
line after the block region, or aborted on an uncaught ValueError. -/
inductive ScanRes where
  | cont : Extremas → Bool → ScanRes
  | broke : Extremas → ScanRes
  | crashed : ScanRes
deriving DecidableEq

/-- Models the funkce2 line loop: enter the block region when a match
carries group 3; while in the region feed every matched line to
update_min_max; break on the first non-matching line after entry. -/
def scanLines (ex : Extremas) (inBlock : Bool) : List String → ScanRes
  | [] => .cont ex inBlock
  | line :: rest =>
    match searchChars line.data with
    | some m =>
      let ib := if !inBlock then m.g3.isSome else inBlock
      if ib then
        match getCoords m with
        | some (x, y) => scanLines (updateMinMax x y ex) true rest
        | none => .crashed
      else scanLines ex false rest
    | none =>
      if inBlock then .broke ex
      else scanLines ex false rest

/-- Models funkce2 end to end: the lines it prints.  The input is none
when the file cannot be opened (the OSError handler prints a
diagnostic and print_min_max still runs on the initial extrema); a
ValueError escaping the loop skips print_min_max entirely, so nothing
is printed. -/
def funkce2Model (input : Option (List String)) : List String :=
  match input with
  | none => ["Cannot open/read file", printMinMax initExtremas]
  | some lines =>
    match scanLines initExtremas false lines with
    | .cont ex _ => [printMinMax ex]
    | .broke ex => [printMinMax ex]
    | .crashed => []


/-! ### Helper lemmas about the extended-value order -/

theorem leX_minUpd (x : Int) (v : XVal) :
    leX (if ltX (.fin x) v then .fin x else v) v = true ∧
    leX (if ltX (.fin x) v then .fin x else v) (.fin x) = true := by
  cases v with
  | ninf => simp [ltX, leX]
  | pinf => simp [ltX, leX]
  | fin b =>
    by_cases h : x < b
    · simp [ltX, leX, h]
    · simp [ltX, leX, h]
      omega

theorem leX_maxUpd (x : Int) (v : XVal) :
    leX v (if ltX v (.fin x) then .fin x else v) = true ∧
    leX (.fin x) (if ltX v (.fin x) then .fin x else v) = true := by
  cases v with
  | ninf => simp [ltX, leX]
  | pinf => simp [ltX, leX]
  | fin b =>
    by_cases h : b < x
    · simp [ltX, leX, h]
    · simp [ltX, leX, h]
      omega

theorem updateMinMax_min_x (x y : Int) (ex : Extremas) :
    (updateMinMax x y ex).min_x =
      if ltX (.fin x) ex.min_x then .fin x else ex.min_x := by
  rcases ex with ⟨a, b, c, d⟩
  simp only [updateMinMax]
  split_ifs <;> rfl

theorem updateMinMax_max_x (x y : Int) (ex : Extremas) :
    (updateMinMax x y ex).max_x =
      if ltX ex.max_x (.fin x) then .fin x else ex.max_x := by
  rcases ex with ⟨a, b, c, d⟩
  simp only [updateMinMax]
  split_ifs <;> rfl

theorem updateMinMax_min_y (x y : Int) (ex : Extremas) :
    (updateMinMax x y ex).min_y =
      if ltX (.fin y) ex.min_y then .fin y else ex.min_y := by
  rcases ex with ⟨a, b, c, d⟩
  simp only [updateMinMax]
  split_ifs <;> rfl

theorem updateMinMax_max_y (x y : Int) (ex : Extremas) :
    (updateMinMax x y ex).max_y =
      if ltX ex.max_y (.fin y) then .fin y else ex.max_y := by
  rcases ex with ⟨a, b, c, d⟩
  simp only [updateMinMax]
  split_ifs <;> rfl

/-- C10: the extrema state is monotonically tightened.  Starting from
the sentinel state (+inf, -inf, +inf, -inf), every update_min_max step
never increases min_x or min_y, never decreases max_x or max_y, and
after processing the pair (x, y) the state brackets it:
min_x ≤ x ≤ max_x and min_y ≤ y ≤ max_y. -/
theorem extrema_monotone_tightening (ex : Extremas) (x y : Int) :
    leX (updateMinMax x y ex).min_x ex.min_x = true ∧
    leX ex.max_x (updateMinMax x y ex).max_x = true ∧
    leX (updateMinMax x y ex).min_y ex.min_y = true ∧
    leX ex.max_y (updateMinMax x y ex).max_y = true ∧
    leX (updateMinMax x y ex).min_x (.fin x) = true ∧
    leX (.fin x) (updateMinMax x y ex).max_x = true ∧
    leX (updateMinMax x y ex).min_y (.fin y) = true ∧
    leX (.fin y) (updateMinMax x y ex).max_y = true ∧
    initExtremas = ⟨.pinf, .ninf, .pinf, .ninf⟩ := by
  rw [updateMinMax_min_x, updateMinMax_max_x, updateMinMax_min_y, updateMinMax_max_y]
  refine ⟨(leX_minUpd x ex.min_x).1, (leX_maxUpd x ex.max_x).1,
    (leX_minUpd y ex.min_y).1, (leX_maxUpd y ex.max_y).1,
    (leX_minUpd x ex.min_x).2, (leX_maxUpd x ex.max_x).2,
    (leX_minUpd y ex.min_y).2, (leX_maxUpd y ex.max_y).2, rfl⟩

/-! ### Helper lemmas about formatting and flushing -/

theorem digitChar_ne_T (d : Nat) : digitChar d ≠ 'T' := by
  unfold digitChar
  split_ifs <;> decide

theorem natDigitsRec_ne_T (fuel : Nat) : ∀ n, ∀ c ∈ natDigitsRec fuel n, c ≠ 'T' := by
  induction fuel with
  | zero => intro n c hc; simp [natDigitsRec] at hc
  | succ f ih =>
    intro n c hc
    by_cases h : n < 10
    · simp [natDigitsRec, h] at hc
      exact hc ▸ digitChar_ne_T n
    · simp [natDigitsRec, h] at hc
      rcases hc with hc | hc
      · exact ih (n / 10) c hc
      · exact hc ▸ digitChar_ne_T (n % 10)

theorem natChars_ne_T (n : Nat) : ∀ c ∈ natChars n, c ≠ 'T' :=
  fun c hc => natDigitsRec_ne_T (n + 1) n c hc

theorem fmtChars_ne_T (n : Int) : ∀ c ∈ fmtChars n, c ≠ 'T' := by
  intro c hc
  unfold fmtChars at hc
  rcases List.mem_append.mp hc with h | h
  · rcases List.mem_append.mp h with h | h
    · by_cases h0 : n < 0
      · rw [if_pos h0] at h
        simp only [List.mem_singleton] at h
        subst h; decide
      · rw [if_neg h0] at h
        simp at h
    · exact natChars_ne_T _ c h
  · rcases List.mem_cons.mp h with h | h
    · subst h; decide
    · unfold pad3 at h
      rcases List.mem_cons.mp h with h | h
      · subst h; exact digitChar_ne_T _
      · rcases List.mem_cons.mp h with h | h
        · subst h; exact digitChar_ne_T _
        · rcases List.mem_cons.mp h with h | h
          · subst h; exact digitChar_ne_T _
          · simp at h

theorem getFormattedCoords_no_T (x y : Int) : 'T' ∉ (getFormattedCoords x y).data := by
  intro hmem
  have hm : 'T' ∈ ('X' :: (fmtChars x ++ 'Y' :: fmtChars y)) := hmem
  rcases List.mem_cons.mp hm with h | h
  · exact absurd h (by decide)
  · rcases List.mem_append.mp h with h | h
    · exact fmtChars_ne_T x 'T' h rfl
    · rcases List.mem_cons.mp h with h | h
      · exact absurd h (by decide)
      · exact fmtChars_ne_T y 'T' h rfl

theorem mem_of_head_T {t : List Char} (ht : t.head? = some 'T') : 'T' ∈ t := by
  cases t with
  | nil => simp at ht
  | cons a l =>
    simp only [List.head?_cons, Option.some.injEq] at ht
    exact ht ▸ List.mem_cons_self a l

theorem token_not_suffix_of_fmt (t : String) (ht : t.data.head? = some 'T')
    (x y : Int) : ¬ List.IsSuffix t.data (getFormattedCoords x y).data := by
  intro hs
  exact getFormattedCoords_no_T x y (hs.subset (mem_of_head_T ht))

theorem groupLines_false_eq_map (t : String) (cs : List (Int × Int)) :
    groupLines t cs false = cs.map (fun c => getFormattedCoords c.1 c.2) := by
  induction cs with
  | nil => rfl
  | cons c rest ih =>
    cases c
    simp [groupLines, ih]

theorem groupLines_true_cons (t : String) (x y : Int) (cs : List (Int × Int)) :
    groupLines t ((x, y) :: cs) true =
      (getFormattedCoords x y ++ t) :: cs.map (fun c => getFormattedCoords c.1 c.2) := by
  simp [groupLines, groupLines_false_eq_map]

theorem lookupBlock_insertCoord (blocks : List (String × List (Int × Int)))
    (t : String) (c : Int × Int) :
    lookupBlock (insertCoord blocks t c) t = lookupBlock blocks t ++ [c] := by
  induction blocks with
  | nil => simp [insertCoord, lookupBlock]
  | cons b rest ih =>
    cases b with
    | mk k cs =>
      by_cases h : k = t
      · simp [insertCoord, lookupBlock, h]
      · simp [insertCoord, lookupBlock, h, ih]

theorem charListLe_iff (l1 : List Char) : ∀ l2 : List Char,
    charListLe l1 l2 = true ↔ ¬ List.Lex (· < ·) l2 l1 := by
  induction l1 with
  | nil =>
    intro l2
    simp [charListLe]
  | cons a as ih =>
    intro l2
    cases l2 with
    | nil =>
      exact iff_of_false (by simp [charListLe]) (fun h => h List.Lex.nil)
    | cons b bs =>
      simp only [charListLe]
      rcases lt_trichotomy a b with h | h | h
      · rw [if_pos h]
        constructor
        · intro _ hlex
          cases hlex with
          | cons hl => exact absurd h (lt_irrefl _)
          | rel h2 => exact absurd h2 (lt_asymm h)
        · intro _; rfl
      · subst h
        rw [if_neg (lt_irrefl a), if_neg (lt_irrefl a), ih bs]
        constructor
        · intro hn hlex
          cases hlex with
          | cons hl => exact hn hl
          | rel h2 => exact absurd h2 (lt_irrefl a)
        · intro hn hlex
          exact hn (List.Lex.cons hlex)
      · rw [if_neg (lt_asymm h), if_pos h]
        exact iff_of_false (by simp) (fun hn => hn (List.Lex.rel h))

theorem strLe_iff (a b : String) : strLe a b = true ↔ a ≤ b := by
  rw [String.le_iff_toList_le, ← not_lt]
  exact charListLe_iff a.data b.data

theorem strLe_total (a b : String) : strLe a b = true ∨ strLe b a = true := by
  rcases le_total a b with h | h
  · exact Or.inl ((strLe_iff a b).mpr h)
  · exact Or.inr ((strLe_iff b a).mpr h)

theorem perm_insertSorted (k : String) (l : List String) :
    List.Perm (insertSorted k l) (k :: l) := by
  induction l with
  | nil => exact List.Perm.refl _
  | cons x xs ih =>
    simp only [insertSorted]
    by_cases h : strLe k x = true
    · rw [if_pos h]
    · rw [if_neg h]
      exact (ih.cons x).trans (List.Perm.swap k x xs)

theorem mem_insertSorted {k b : String} {l : List String} :
    b ∈ insertSorted k l ↔ b = k ∨ b ∈ l := by
  rw [(perm_insertSorted k l).mem_iff]
  simp

theorem sorted_insertSorted (k : String) (l : List String)
    (h : List.Sorted (· ≤ ·) l) : List.Sorted (· ≤ ·) (insertSorted k l) := by
  induction l with
  | nil => simp [insertSorted]
  | cons x xs ih =>
    rcases List.sorted_cons.mp h with ⟨hx, hxs⟩
    simp only [insertSorted]
    by_cases hkx : strLe k x = true
    · rw [if_pos hkx]
      refine List.sorted_cons.mpr ⟨?_, h⟩
      intro b hb
      rcases List.mem_cons.mp hb with rfl | hb
      · exact (strLe_iff k b).mp hkx
      · exact le_trans ((strLe_iff k x).mp hkx) (hx b hb)
    · rw [if_neg hkx]
      refine List.sorted_cons.mpr ⟨?_, ih hxs⟩
      intro b hb
      rcases mem_insertSorted.mp hb with rfl | hb
      · rcases strLe_total b x with hbx | hxb
        · exact absurd hbx hkx
        · exact (strLe_iff x b).mp hxb
      · exact hx b hb

theorem sorted_sortStrings (l : List String) :
    List.Sorted (· ≤ ·) (sortStrings l) := by
  induction l with
  | nil => simp [sortStrings]
  | cons x xs ih => exact sorted_insertSorted x _ ih

theorem perm_sortStrings (l : List String) : List.Perm (sortStrings l) l := by
  induction l with
  | nil => exact List.Perm.refl _
  | cons x xs ih => exact (perm_insertSorted x _).trans (ih.cons x)

/-- C6: within one flushed block region, the tool-definition groups
appear in ascending lexicographic order of their token (the flush walks
sorted(blocks.keys()), which is a sorted permutation of the keys), and
within each group the buffered coordinates appear in buffer order —
and buffering appends each new coordinate at the end, so buffer order
is input order. -/
theorem flush_sorted_groups_in_input_order
    (blocks : List (String × List (Int × Int))) :
    List.Sorted (· ≤ ·) (sortedKeys blocks) ∧
    List.Perm (sortedKeys blocks) (blocks.map Prod.fst) ∧
    (∀ t x y cs, groupLines t ((x, y) :: cs) true =
      (getFormattedCoords x y ++ t) ::
        cs.map (fun c => getFormattedCoords c.1 c.2)) ∧
    (∀ t c, lookupBlock (insertCoord blocks t c) t = lookupBlock blocks t ++ [c]) ∧
    flushLines blocks =
      (sortedKeys blocks).flatMap
        (fun t => groupLines t (lookupBlock blocks t) true) := by
  refine ⟨sorted_sortStrings (blocks.map Prod.fst),
    perm_sortStrings (blocks.map Prod.fst),
    fun t x y cs => groupLines_true_cons t x y cs,
    fun t c => lookupBlock_insertCoord blocks t c, rfl⟩

/-- C7: in a flushed group, exactly the first written line carries the
tool-definition token as a suffix: the group renders as the first
coordinate with the token appended followed by the remaining formatted
coordinates, the token is a suffix of that first line, and it is not a
suffix of any later line of the group. -/
theorem label_on_first_line_only (t : String) (x y : Int) (cs : List (Int × Int))
    (ht : t.data.head? = some 'T') :
    groupLines t ((x, y) :: cs) true =
      (getFormattedCoords x y ++ t) ::
        cs.map (fun c => getFormattedCoords c.1 c.2) ∧
    List.IsSuffix t.data ((getFormattedCoords x y ++ t)).data ∧
    (∀ l ∈ cs.map (fun c => getFormattedCoords c.1 c.2),
      ¬ List.IsSuffix t.data l.data) := by
  refine ⟨groupLines_true_cons t x y cs, ?_, ?_⟩
  · rw [String.data_append]
    exact List.suffix_append _ _
  · intro l hl
    rcases List.mem_map.mp hl with ⟨c, _, rfl⟩
    exact token_not_suffix_of_fmt t ht c.1 c.2

/-- Witness for label_on_first_line_only at the token T01 and a
concrete two-coordinate group. -/
theorem label_on_first_line_only_witness :
    groupLines "T01" [(60000, 15000), (20000, 8000)] true =
      ["X60.000Y15.000T01", "X20.000Y8.000"] ∧
    List.IsSuffix "T01".data "X60.000Y15.000T01".data := by
  have h := label_on_first_line_only "T01" 60000 15000 [(20000, 8000)] (by decide)
  refine ⟨?_, ?_⟩
  · rw [h.1]
    decide
  · have h2 := h.2.1
    have : (getFormattedCoords 60000 15000 ++ "T01") = "X60.000Y15.000T01" := by decide
    rwa [this] at h2

/-! ### The offset rule and the flush step of the rewrite pipeline -/

/-- C2: for every coordinate the rewrite pipeline records — whether
buffered into the active tool-definition block or passed through
directly to the output — the recorded X equals the parsed X, and the
recorded Y is the parsed Y plus exactly 10.000 when X > 50.000 and the
parsed Y unchanged otherwise (values in thousandths). -/
theorem offset_rule_applied (st : RwState) (m : CMatch) (x y : Int)
    (hxy : getCoords m = some (x, y)) :
    (truthy (effToolDef m st) = true →
      parseLineStep m st = { st with
        blocks := insertCoord st.blocks ((effToolDef m st).getD "")
          (x, if 50000 < x then y + 10000 else y),
        toolDef := effToolDef m st }) ∧
    (truthy (effToolDef m st) = false →
      parseLineStep m st = { st with
        out := st.out ++
          [getFormattedCoords x (if 50000 < x then y + 10000 else y)],
        toolDef := effToolDef m st }) := by
  constructor
  · intro ht
    unfold parseLineStep
    rw [hxy]
    simp [ht]
  · intro ht
    unfold parseLineStep
    rw [hxy]
    simp [ht]

/-- Witness for offset_rule_applied on the line X60.000Y5.000T01 from
the initial state: X = 60.000 > 50.000, so the buffered pair is
(60.000, 15.000). -/
theorem offset_rule_applied_witness :
    parseLineStep ⟨"60.000".data, "5.000".data, some "T01".data⟩ funkce1Init =
      ⟨[("T01", [(60000, 15000)])], some "T01", [], false⟩ := by
  have h := (offset_rule_applied funkce1Init
    ⟨"60.000".data, "5.000".data, some "T01".data⟩ 60000 5000 (by decide)).1 (by decide)
  exact h.trans (by decide)

/-- C1 counterexample: a file with two block regions.  The coordinate
X1.000Y1.000 of the first region is flushed again by the second flush
(the accumulator is never cleared), so the line X1.000Y1.000T01 is
written twice — contradicting the claim that no coordinate is emitted
in more than one flush. -/
theorem accumulator_not_cleared_cex :
    funkce1Out ["X1.000Y1.000T01", "M30", "X2.000Y2.000T02", "M30"] =
      ["X1.000Y1.000T01", "M30",
       "X1.000Y1.000T01", "X2.000Y2.000T02", "M30"] ∧
    (funkce1Out ["X1.000Y1.000T01", "M30", "X2.000Y2.000T02", "M30"]).count
      "X1.000Y1.000T01" = 2 := by
  constructor
  · decide
  · decide

/-- C1 (amended): when a non-matching line ends a block region the
buffered blocks are flushed, but the accumulator is NOT cleared: the
step writes the flush of everything accumulated since the start of the
file, writes the line verbatim, resets the tool definition to none and
leaves the accumulator untouched, so a later flush emits all earlier
coordinates again. -/
theorem flush_without_clearing (st : RwState) (line : String)
    (hc : st.crashed = false) (ht : truthy st.toolDef = true)
    (hs : searchChars line.data = none) :
    funkce1Step st line =
      { st with out := st.out ++ flushLines st.blocks ++ [line],
                toolDef := none } := by
  unfold funkce1Step
  simp [hc, hs, ht]

/-- Witness for flush_without_clearing: the state after the first
block of the counterexample file, stepped over the terminator M30; the
accumulator still holds the flushed block afterwards. -/
theorem flush_without_clearing_witness :
    funkce1Step ⟨[("T01", [(1000, 1000)])], some "T01", [], false⟩ "M30" =
      ⟨[("T01", [(1000, 1000)])], none, ["X1.000Y1.000T01", "M30"], false⟩ := by
  have h := flush_without_clearing
    ⟨[("T01", [(1000, 1000)])], some "T01", [], false⟩ "M30" rfl (by decide) (by decide)
  exact h.trans (by decide)

/-- C3: the float-parse error branch IS reachable from a
classifier-matched line.  The pattern writes -* where the documented
grammar has an optional single minus, so X--1.000Y2.000 matches the
classifier with first numeric group --1.000, float() raises ValueError
on that group, and the rewrite run aborts. -/
theorem parse_error_reachable :
    searchChars "X--1.000Y2.000".data =
      some ⟨"--1.000".data, "2.000".data, none⟩ ∧
    getCoords ⟨"--1.000".data, "2.000".data, none⟩ = none ∧
    (funkce1Run ["X--1.000Y2.000"]).crashed = true := by
  refine ⟨by decide, by decide, by decide⟩

/-! ### No flush at end of file -/

theorem matchT_shape (cs g : List Char) (h : matchT cs = some g) :
    ∃ ds, g = 'T' :: ds := by
  cases cs with
  | nil => exact absurd h (by simp [matchT])
  | cons c rest =>
    simp only [matchT] at h
    repeat' split at h
    all_goals try exact Option.noConfusion h
    exact ⟨rest.takeWhile Char.isDigit, (Option.some.injEq _ _ ▸ h).symm⟩

theorem matchAt_g3_shape (cs : List Char) (m : CMatch) (h : matchAt cs = some m) :
    m.g3 = none ∨ ∃ ds, m.g3 = some ('T' :: ds) := by
  cases cs with
  | nil => exact absurd h (by simp [matchAt])
  | cons c r0 =>
    simp only [matchAt] at h
    repeat' split at h
    all_goals try exact Option.noConfusion h
    rename_i g2 r3 heq2
    simp only [Option.some.injEq] at h
    subst h
    cases hmt : matchT r3 with
    | none => exact Or.inl (by simp [hmt])
    | some g =>
      obtain ⟨ds, hds⟩ := matchT_shape r3 g hmt
      exact Or.inr ⟨ds, by simp [hmt, hds]⟩

theorem searchChars_g3_shape (cs : List Char) (m : CMatch)
    (h : searchChars cs = some m) :
    m.g3 = none ∨ ∃ ds, m.g3 = some ('T' :: ds) := by
  induction cs with
  | nil => exact absurd h (by simp [searchChars])
  | cons c rest ih =>
    unfold searchChars at h
    cases hma : matchAt (c :: rest) with
    | some m0 =>
      rw [hma] at h
      simp only [Option.some.injEq] at h
      subst h
      exact matchAt_g3_shape (c :: rest) m0 hma
    | none =>
      rw [hma] at h
      exact ih h

theorem mk_cons_ne_empty (c : Char) (ds : List Char) :
    String.mk (c :: ds) ≠ "" := by
  intro hEq
  have hdata := congrArg String.data hEq
  simp at hdata

/-- If the tool definition is active and a line matches the pattern,
the rewrite step keeps the tool definition active and writes nothing. -/
theorem funkce1Step_match_active (st : RwState) (line : String)
    (ht : truthy st.toolDef = true)
    (hm : (searchChars line.data).isSome = true) :
    (funkce1Step st line).out = st.out ∧
    truthy (funkce1Step st line).toolDef = true := by
  obtain ⟨m, hm2⟩ := Option.isSome_iff_exists.mp hm
  have htd : truthy (effToolDef m st) = true := by
    rcases searchChars_g3_shape line.data m hm2 with h3 | ⟨ds, h3⟩
    · unfold effToolDef
      rw [h3]
      exact ht
    · unfold effToolDef
      rw [h3]
      unfold truthy
      simp [mk_cons_ne_empty 'T' ds]
  unfold funkce1Step
  by_cases hcr : st.crashed = true
  · simp [hcr]
    exact ht
  · simp only [Bool.not_eq_true] at hcr
    simp only [hcr, Bool.false_eq_true, if_false, hm2]
    unfold parseLineStep
    cases hg : getCoords m with
    | none => exact ⟨rfl, ht⟩
    | some xy =>
      obtain ⟨x, y⟩ := xy
      simp only [htd, if_true]
      exact ⟨trivial, trivial⟩

/-- Folding the rewrite step over lines that all match, starting with
an active tool definition, never writes output and keeps the tool
definition active. -/
theorem funkce1_fold_matches_no_output (s : List String) : ∀ st : RwState,
    truthy st.toolDef = true →
    (∀ l ∈ s, (searchChars l.data).isSome = true) →
    (List.foldl funkce1Step st s).out = st.out ∧
    truthy (List.foldl funkce1Step st s).toolDef = true := by
  induction s with
  | nil => exact fun st ht _ => ⟨rfl, ht⟩
  | cons l rest ih =>
    intro st ht hall
    have hstep := funkce1Step_match_active st l ht
      (hall l (List.mem_cons_self l rest))
    rw [List.foldl_cons]
    have hrest := ih (funkce1Step st l) hstep.2
      (fun l2 h2 => hall l2 (List.mem_cons_of_mem l h2))
    exact ⟨hrest.1.trans hstep.1, hrest.2⟩

/-- C4: if the input file ends while a tool definition is still active
— after some prefix p the tool definition is active and every
remaining line of s matches the coordinate pattern, so no terminating
non-matching line follows — then the file's output equals the output
after p alone: nothing buffered during s is ever written. -/
theorem eof_active_block_never_written (p s : List String)
    (ht : truthy (funkce1Run p).toolDef = true)
    (hs : ∀ l ∈ s, (searchChars l.data).isSome = true) :
    funkce1Out (p ++ s) = funkce1Out p ∧
    truthy (funkce1Run (p ++ s)).toolDef = true := by
  unfold funkce1Out funkce1Run
  rw [List.foldl_append]
  exact funkce1_fold_matches_no_output s (List.foldl funkce1Step funkce1Init p)
    ht hs

/-- Witness for eof_active_block_never_written: a file whose single
block is never terminated produces no output at all; the buffered
coordinates are silently dropped. -/
theorem eof_active_block_never_written_witness :
    funkce1Out (["X1.000Y1.000T01"] ++ ["X2.000Y2.000"]) =
      funkce1Out ["X1.000Y1.000T01"] ∧
    funkce1Out ["X1.000Y1.000T01"] = [] ∧
    (funkce1Run ["X1.000Y1.000T01", "X2.000Y2.000"]).blocks =
      [("T01", [(1000, 1000), (2000, 2000)])] := by
  refine ⟨(eof_active_block_never_written ["X1.000Y1.000T01"] ["X2.000Y2.000"]
    (by decide) (by decide)).1, by decide, by decide⟩

/-! ### Report pipeline: early termination, entry condition, printing -/

theorem scanLines_append (p : List String) : ∀ (q : List String) (ex : Extremas) (b : Bool),
    scanLines ex b (p ++ q) =
      match scanLines ex b p with
      | .cont ex2 b2 => scanLines ex2 b2 q
      | .broke ex2 => .broke ex2
      | .crashed => .crashed := by
  induction p with
  | nil =>
    intro q ex b
    simp [scanLines]
  | cons line rest ih =>
    intro q ex b
    simp only [List.cons_append, scanLines]
    cases hs : searchChars line.data with
    | some m =>
      cases hib : (if !b then m.g3.isSome else b) with
      | false =>
        simp only [hib, Bool.false_eq_true, if_false]
        exact ih q ex false
      | true =>
        simp only [hib, if_true]
        cases hg : getCoords m with
        | some xy =>
          obtain ⟨x, y⟩ := xy
          exact ih q (updateMinMax x y ex) true
        | none => rfl
    | none =>
      cases b with
      | false =>
        simp only [Bool.false_eq_true, if_false]
        exact ih q ex false
      | true => rfl

theorem scanLines_true_stays (lines : List String) : ∀ ex ex2 b2,
    scanLines ex true lines = .cont ex2 b2 → b2 = true := by
  induction lines with
  | nil =>
    intro ex ex2 b2 h
    simp only [scanLines, ScanRes.cont.injEq] at h
    exact h.2.symm
  | cons line rest ih =>
    intro ex ex2 b2 h
    simp only [scanLines] at h
    cases hs : searchChars line.data with
    | some m =>
      rw [hs] at h
      simp only [Bool.not_true, Bool.false_eq_true, if_false, if_true] at h
      cases hg : getCoords m with
      | some xy =>
        obtain ⟨x, y⟩ := xy
        rw [hg] at h
        exact ih (updateMinMax x y ex) ex2 b2 h
      | none =>
        rw [hg] at h
        exact absurd h (by simp)
    | none =>
      rw [hs] at h
      exact absurd h (by simp)

theorem scanLines_cont_false_eq (lines : List String) : ∀ ex ex2,
    scanLines ex false lines = .cont ex2 false → ex2 = ex := by
  induction lines with
  | nil =>
    intro ex ex2 h
    simp only [scanLines, ScanRes.cont.injEq] at h
    exact h.1.symm
  | cons line rest ih =>
    intro ex ex2 h
    simp only [scanLines] at h
    cases hs : searchChars line.data with
    | some m =>
      rw [hs] at h
      simp only [Bool.not_false, if_true] at h
      cases h3 : m.g3.isSome with
      | false =>
        rw [h3] at h
        simp only [Bool.false_eq_true, if_false] at h
        exact ih ex ex2 h
      | true =>
        rw [h3] at h
        simp only [if_true] at h
        cases hg : getCoords m with
        | some xy =>
          obtain ⟨x, y⟩ := xy
          rw [hg] at h
          exact absurd (scanLines_true_stays rest _ ex2 false h) (by simp)
        | none =>
          rw [hg] at h
          exact absurd h (by simp)
    | none =>
      rw [hs] at h
      simp only [Bool.false_eq_true, if_false] at h
      exact ih ex ex2 h

/-- C5: in the report pipeline, the first non-matching line after the
block region has been entered terminates scanning of the entire
remainder of the file: whatever rest contains — even a later
tool-definition block — the scan result is the extrema accumulated
before the terminator, and that is what gets printed. -/
theorem report_early_termination (p : List String) (term : String)
    (rest : List String) (ex : Extremas)
    (hp : scanLines initExtremas false p = .cont ex true)
    (hterm : searchChars term.data = none) :
    scanLines initExtremas false (p ++ term :: rest) = .broke ex ∧
    funkce2Model (some (p ++ term :: rest)) = [printMinMax ex] := by
  have happ := scanLines_append p (term :: rest) initExtremas false
  rw [hp] at happ
  have hstep : scanLines ex true (term :: rest) = .broke ex := by
    simp [scanLines, hterm]
  have hall : scanLines initExtremas false (p ++ term :: rest) = .broke ex := by
    rw [happ]
    exact hstep
  refine ⟨hall, ?_⟩
  simp only [funkce2Model, hall]

/-- Witness for report_early_termination: the block X1.000Y1.000T01 is
terminated by M30; the later block X9.000Y9.000T02 is never scanned
and the printed extrema cover only the first block. -/
theorem report_early_termination_witness :
    scanLines initExtremas false (["X1.000Y1.000T01"] ++ "M30" :: ["X9.000Y9.000T02"]) =
      .broke ⟨.fin 1000, .fin 1000, .fin 1000, .fin 1000⟩ ∧
    funkce2Model (some (["X1.000Y1.000T01"] ++ "M30" :: ["X9.000Y9.000T02"])) =
      ["1.000/1.000/1.000/1.000"] := by
  have h := report_early_termination ["X1.000Y1.000T01"] "M30" ["X9.000Y9.000T02"]
    ⟨.fin 1000, .fin 1000, .fin 1000, .fin 1000⟩ (by decide) (by decide)
  exact ⟨h.1, h.2.trans (by decide)⟩

/-- C8: while not yet in the block region, a matched coordinate line
without a tool-definition field is skipped — the extrema are untouched
and the region is not entered — while a matched line carrying a
tool-definition field enters the region and its own coordinates are
fed to update_min_max. -/
theorem report_entry_condition (ex : Extremas) (line : String) (rest : List String)
    (m : CMatch) (hs : searchChars line.data = some m) :
    (m.g3 = none → scanLines ex false (line :: rest) = scanLines ex false rest) ∧
    (∀ g x y, m.g3 = some g → getCoords m = some (x, y) →
      scanLines ex false (line :: rest) =
        scanLines (updateMinMax x y ex) true rest) := by
  constructor
  · intro h3
    simp [scanLines, hs, h3]
  · intro g x y h3 hxy
    simp [scanLines, hs, h3, hxy]

/-- Witness for report_entry_condition: X10.000Y5.000 before any block
is skipped; X60.000Y5.000T01 enters the region and contributes its
coordinates. -/
theorem report_entry_condition_witness :
    scanLines initExtremas false ["X10.000Y5.000", "X60.000Y5.000T01"] =
      scanLines initExtremas false ["X60.000Y5.000T01"] ∧
    scanLines initExtremas false ["X60.000Y5.000T01"] =
      scanLines (updateMinMax 60000 5000 initExtremas) true [] := by
  have h1 := (report_entry_condition initExtremas "X10.000Y5.000" ["X60.000Y5.000T01"]
    ⟨"10.000".data, "5.000".data, none⟩ (by decide)).1 rfl
  have h2 := (report_entry_condition initExtremas "X60.000Y5.000T01" []
    ⟨"60.000".data, "5.000".data, some "T01".data⟩ (by decide)).2
    "T01".data 60000 5000 rfl (by decide)
  exact ⟨h1, h2⟩

/-- C9 counterexample: the report pipeline does NOT always print an
extrema line.  On a file whose in-block matched line has a double
minus sign, get_coords raises an uncaught ValueError inside the try
block, print_min_max is skipped, and nothing is printed. -/
theorem report_not_always_prints_cex :
    funkce2Model (some ["X--1.000Y2.000T01"]) = [] := by decide

/-- C9 (amended): whenever the scan finishes without an internal
float-parse error, funkce2 prints exactly one line — the four extrema
formatted to three decimals, joined by "/" in the order
xMin/xMax/yMin/yMax.  When the file cannot be opened it prints the
diagnostic and still prints the sentinel line "inf", "-inf", "inf",
"-inf" joined by "/", and whenever the block region is never entered
the printed values are those infinity sentinels. -/
theorem report_extrema_line_printing :
    (funkce2Model none = ["Cannot open/read file", "inf/-inf/inf/-inf"]) ∧
    (∀ lines ex b2, scanLines initExtremas false lines = .cont ex b2 →
      funkce2Model (some lines) = [printMinMax ex]) ∧
    (∀ lines ex, scanLines initExtremas false lines = .broke ex →
      funkce2Model (some lines) = [printMinMax ex]) ∧
    (∀ lines ex, scanLines initExtremas false lines = .cont ex false →
      funkce2Model (some lines) = ["inf/-inf/inf/-inf"]) := by
  refine ⟨by decide, ?_, ?_, ?_⟩
  · intro lines ex b2 h
    simp only [funkce2Model, h]
  · intro lines ex h
    simp only [funkce2Model, h]
  · intro lines ex h
    have hex := scanLines_cont_false_eq lines initExtremas ex h
    simp only [funkce2Model, h, hex]
    decide

/-- Witness for report_extrema_line_printing: a file with coordinates
but no tool-definition line anywhere prints the sentinel line. -/
theorem report_extrema_line_printing_witness :
    funkce2Model (some ["G01", "X10.000Y5.000"]) = ["inf/-inf/inf/-inf"] :=
  report_extrema_line_printing.2.2.2 ["G01", "X10.000Y5.000"] initExtremas (by decide)
